import Mathlib

/-!
Verification development for `bedrock-tokenized-cache` (`src/lib/cache.js`),
a privacy-preserving, TTL-bounded key/value cache.

The shallow embedding below translates the source module into Lean:
* JSON documents (`JVal`) and canonicalization (the `canonicalize` npm
  package, RFC 8785 style: object keys serialized in sorted order);
* base64url encoding (no padding, as produced by `base64url.encode` and
  `Buffer.toString` with the base64url alphabet);
* UTF-8 encoding of identifier strings (`TextEncoder.encode`);
* JavaScript `Date` values with `NaN`-aware comparisons (`JSDate`);
* the durable MongoDB entry store (unique key `entry.tokenizedId`,
  `updateOne` with `$set`/`$setOnInsert` and `upsert: true`);
* the in-memory LRU read-through cache keyed by the base64url form of the
  tokenized id, with memoized fetch and delete-on-staleness;
* the public operations `createId`, `get`, `upsert`, `tokenizeId` and the
  internal helpers `_getUncachedEntry` and `_hmacString`.

External collaborators (the keyed HMAC of the tokenizer, SHA-256) are
modelled as function parameters collected in `ModuleEnv`; time is modelled
as an explicit integer timestamp passed to each operation (one clock
reading per top-level call, matching millisecond-resolution `Date.now()`).
The unbounded staleness-retry recursion in `get` is embedded with an
explicit fuel argument; the development proves fuel `2` always suffices.
-/

namespace TokenizedCache

/-! ## JSON documents and canonicalization -/

/-- A JSON value, the shape of documents and cached values handled by the
module (`createId`'s `document` argument and `upsert`'s `value`). -/
inductive JVal where
  | null : JVal
  | bool : Bool → JVal
  | num : Int → JVal
  | str : String → JVal
  | arr : List JVal → JVal
  | obj : List (String × JVal) → JVal

/-- Insert a keyed pair into a list sorted by key (string order), placing
the new pair before the first pair whose key is not smaller. -/
def insertByKey {α : Type} (p : String × α) : List (String × α) → List (String × α)
  | [] => [p]
  | q :: qs => if q.1 < p.1 then q :: insertByKey p qs else p :: q :: qs

/-- Sort a key/value list by key, as `Object.keys(object).sort()` orders
object members in the `canonicalize` npm package. -/
def sortByKey {α : Type} : List (String × α) → List (String × α)
  | [] => []
  | p :: ps => insertByKey p (sortByKey ps)

/-- The lower-case hexadecimal digit of a value below sixteen. -/
def hexDigitChar (n : Nat) : Char :=
  if n < 10 then Char.ofNat (48 + n) else Char.ofNat (87 + n)

/-- The escape of a control code (below 32): the five short forms of
`JSON.stringify`, else a `u00`-style hexadecimal escape. -/
def controlEscape (n : Nat) : List Char :=
  if n = 8 then ['\\', 'b']
  else if n = 9 then ['\\', 't']
  else if n = 10 then ['\\', 'n']
  else if n = 12 then ['\\', 'f']
  else if n = 13 then ['\\', 'r']
  else '\\' :: 'u' :: '0' :: '0' :: [hexDigitChar (n / 16), hexDigitChar (n % 16)]

/-- JSON string escaping of one character (as `JSON.stringify` escapes
string contents): quote and backslash are backslash-escaped, control
codes get `controlEscape`, everything else stands for itself. -/
def escapeChar (c : Char) : List Char :=
  if c = '"' ∨ c = '\\' then ['\\', c]
  else if 32 ≤ c.toNat then [c]
  else controlEscape c.toNat

/-- JSON string literal serialization: surrounding quotes plus escapes. -/
def jsonQuote (s : String) : String :=
  String.mk ('"' :: (s.toList.map escapeChar).flatten ++ ['"'])

/-- Comma-separated joining of serialized items. -/
def commaJoin (items : List String) : String :=
  String.intercalate "," items

mutual

/-- The `canonicalize` npm package (RFC 8785 JSON Canonicalization Scheme,
as called by `createId` in `src/lib/cache.js`): deterministic
serialization with object members emitted in sorted key order. -/
def canonicalizeJ : JVal → String
  | .null => "null"
  | .bool true => "true"
  | .bool false => "false"
  | .num n => toString n
  | .str s => jsonQuote s
  | .arr vs => "[" ++ commaJoin (canonListJ vs) ++ "]"
  | .obj kvs => "\x7b" ++ commaJoin ((sortByKey (canonMembersJ kvs)).map Prod.snd) ++ "\x7d"

/-- Serialize the elements of a JSON array in order. -/
def canonListJ : List JVal → List String
  | [] => []
  | v :: vs => canonicalizeJ v :: canonListJ vs

/-- Serialize object members, keeping each member's key alongside its
serialized `"key":value` text so members can then be sorted by key. -/
def canonMembersJ : List (String × JVal) → List (String × String)
  | [] => []
  | (k, v) :: kvs => (k, jsonQuote k ++ ":" ++ canonicalizeJ v) :: canonMembersJ kvs

end

mutual

/-- Specification-side normal form of a JSON value: sort the members of
every object node by key, recursively. Two documents are structurally
equal up to object key insertion order exactly when their normal forms
coincide. -/
def normalizeJ : JVal → JVal
  | .null => .null
  | .bool b => .bool b
  | .num n => .num n
  | .str s => .str s
  | .arr vs => .arr (normalizeListJ vs)
  | .obj kvs => .obj (sortByKey (normalizeMembersJ kvs))

/-- Normalize the elements of a JSON array. -/
def normalizeListJ : List JVal → List JVal
  | [] => []
  | v :: vs => normalizeJ v :: normalizeListJ vs

/-- Normalize the values of object members. -/
def normalizeMembersJ : List (String × JVal) → List (String × JVal)
  | [] => []
  | (k, v) :: kvs => (k, normalizeJ v) :: normalizeMembersJ kvs

end

mutual

/-- Plain JSON serialization with members in the order given (no
sorting); composing it with `normalizeJ` factors `canonicalizeJ`. -/
def serializeJ : JVal → String
  | .null => "null"
  | .bool true => "true"
  | .bool false => "false"
  | .num n => toString n
  | .str s => jsonQuote s
  | .arr vs => "[" ++ commaJoin (serListJ vs) ++ "]"
  | .obj kvs => "\x7b" ++ commaJoin (serMembersJ kvs) ++ "\x7d"

/-- Serialize array elements in order. -/
def serListJ : List JVal → List String
  | [] => []
  | v :: vs => serializeJ v :: serListJ vs

/-- Serialize object members in order as `"key":value` strings. -/
def serMembersJ : List (String × JVal) → List String
  | [] => []
  | (k, v) :: kvs => (jsonQuote k ++ ":" ++ serializeJ v) :: serMembersJ kvs

end

/-- Structural equality of documents up to object key insertion order. -/
def structEqUpToKeyOrder (v1 v2 : JVal) : Prop :=
  normalizeJ v1 = normalizeJ v2

/-! ## base64url encoding (no padding) -/

/-- Byte sequences (each element intended to lie below 256), the shape of
`Buffer`/`Uint8Array` values in the source. -/
abbrev Bytes := List Nat

/-- The base64url alphabet (RFC 4648 §5), as used by `base64url.encode`
and `Buffer.prototype.toString` with the `base64url` encoding. -/
def b64Alphabet : List Char :=
  (List.range 26).map (fun n => Char.ofNat (65 + n)) ++
    (List.range 26).map (fun n => Char.ofNat (97 + n)) ++
    (List.range 10).map (fun n => Char.ofNat (48 + n)) ++ ['-', '_']

/-- The character encoding a six-bit group. -/
def charOfSextet (n : Nat) : Char :=
  b64Alphabet.getD n 'A'

/-- The six-bit group encoded by a base64url character (left inverse of
`charOfSextet` on values below 64). -/
def sextetOfChar (c : Char) : Nat :=
  (b64Alphabet.indexOf c : Nat)

/-- Split bytes into six-bit groups, unpadded (final group of one byte
yields two sextets, of two bytes yields three sextets). -/
def b64EncodeBytes : List Nat → List Nat
  | [] => []
  | [b0] => [b0 / 4, b0 % 4 * 16]
  | [b0, b1] => [b0 / 4, b0 % 4 * 16 + b1 / 16, b1 % 16 * 4]
  | b0 :: b1 :: b2 :: rest =>
    b0 / 4 :: (b0 % 4 * 16 + b1 / 16) :: (b1 % 16 * 4 + b2 / 64) :: b2 % 64 ::
      b64EncodeBytes rest

/-- Reassemble bytes from six-bit groups (inverse of `b64EncodeBytes`). -/
def b64DecodeSextets : List Nat → List Nat
  | [] => []
  | [_] => []
  | [s0, s1] => [s0 * 4 + s1 / 16]
  | [s0, s1, s2] => [s0 * 4 + s1 / 16, s1 % 16 * 16 + s2 / 4]
  | s0 :: s1 :: s2 :: s3 :: rest =>
    (s0 * 4 + s1 / 16) :: (s1 % 16 * 16 + s2 / 4) :: (s2 % 4 * 64 + s3) ::
      b64DecodeSextets rest

/-- Unpadded base64url encoding of a byte sequence, as a string. -/
def base64urlEncode (bs : Bytes) : String :=
  String.mk ((b64EncodeBytes bs).map charOfSextet)

/-! ## UTF-8 encoding of identifier strings -/

/-- UTF-8 encoding of one Unicode scalar value (`TextEncoder` semantics). -/
def utf8EncodeChar (c : Char) : List Nat :=
  let n := c.toNat
  if n < 128 then [n]
  else if n < 2048 then [192 + n / 64, 128 + n % 64]
  else if n < 65536 then [224 + n / 4096, 128 + n / 64 % 64, 128 + n % 64]
  else [240 + n / 262144, 128 + n / 4096 % 64, 128 + n / 64 % 64, 128 + n % 64]

/-- UTF-8 encoding of a string (`TEXT_ENCODER.encode` in the source). -/
def utf8Encode (s : String) : Bytes :=
  (s.toList.map utf8EncodeChar).flatten

/-! ## JavaScript dates and the entry data model -/

/-- A JavaScript `Date`: either a definite timestamp in milliseconds, or
the invalid date produced by `new Date(NaN)` (as arises from
`now + undefined`). -/
inductive JSDate where
  | valid : Int → JSDate
  | invalid : JSDate
deriving Repr, DecidableEq

/-- JavaScript `<` on dates: comparisons against an invalid date are
always false (`NaN` semantics). The source's `a > b` is `ltD b a`. -/
def JSDate.ltD : JSDate → JSDate → Bool
  | .valid a, .valid b => a < b
  | _, _ => false

/-- The `entry` subdocument of a stored record: `tokenizedId` (the match
key), logical expiration `expires`, and the caller's `value`. -/
structure Entry where
  tokenizedId : Bytes
  expires : JSDate
  value : JVal

/-- The `meta` subdocument: timestamps written by `upsert`. -/
structure RecordMeta where
  created : Int
  updated : Int
deriving Repr, DecidableEq

/-- A durable-store record, `{entry, meta}` as stored and returned. -/
structure CacheRecord where
  entry : Entry
  meta : RecordMeta

/-- The durable MongoDB collection, keyed by the unique index on
`entry.tokenizedId`: a point lookup per tokenized id. -/
abbrev EntryStore := Bytes → Option CacheRecord

/-- The in-memory entry cache (`ENTRY_CACHE`), keyed by the base64url
string form of the tokenized id. Only successfully fetched records
occupy a slot: `lru-memoize` removes a slot whose fetch rejected. -/
abbrev MemCache := String → Option CacheRecord

/-- Combined mutable state touched by the module: durable store plus
in-memory cache. -/
structure SysState where
  store : EntryStore
  cache : MemCache

/-- The in-memory cache key for a tokenized id:
`tokenizedId.toString('base64url')`. -/
def cacheKey (tokenizedId : Bytes) : String :=
  base64urlEncode tokenizedId

/-- Remove a key from the in-memory cache (`ENTRY_CACHE.delete(key)`). -/
def cacheDelete (c : MemCache) (key : String) : MemCache :=
  fun k => if k = key then none else c k

/-- Install a fetched record under a key (the memoized fetch resolving). -/
def cacheInsert (c : MemCache) (key : String) (record : CacheRecord) : MemCache :=
  fun k => if k = key then some record else c k

/-! ## Tokenizer environment and errors -/

/-- A tokenizer handle from `@bedrock/tokenizer`: its keyed HMAC, modelled
as a deterministic function on byte sequences (`hmac.sign({data})`). -/
structure Tokenizer where
  hmac : Bytes → Bytes

/-- External collaborators of the module: the current tokenizer returned
by `tokenizers.getCurrent()` and the SHA-256 digest function. -/
structure ModuleEnv where
  current : Tokenizer
  sha256 : String → Bytes

/-- Errors surfaced by the module: invalid caller arguments (thrown before
any tokenization or store access) and the `NotFoundError` BedrockError
(`httpStatusCode` 404) thrown by `_getUncachedEntry`. -/
inductive CacheError where
  | invalidArgument : String → CacheError
  | notFound : CacheError
deriving Repr, DecidableEq

/-! ## Source operations -/

/-- `_hmacString({hmac, value})`: HMAC the UTF-8 encoding of `value` and
prefix the multihash type tag (18 = 0x12 for sha2-256, 32 = digest byte
length). -/
def hmacString (hmac : Bytes → Bytes) (value : String) : Bytes :=
  18 :: 32 :: hmac (utf8Encode value)

/-- `tokenizeId({id, tokenizer})`: resolve the tokenizer (the given one,
else the current one) and return the HMAC-derived tokenized id together
with the resolved tokenizer. -/
def tokenizeId (env : ModuleEnv) (id : String) (tokenizer : Option Tokenizer) :
    Bytes × Tokenizer :=
  match tokenizer with
  | some t => (hmacString t.hmac id, t)
  | none => (hmacString env.current.hmac id, env.current)

/-- `createId({document})`: canonicalize the document, SHA-256 hash the
canonical string, prefix the multihash tag `[18, 32]`, and base64url
encode. Uses only the hash, never the keyed HMAC. -/
def createId (env : ModuleEnv) (document : JVal) : String :=
  base64urlEncode (18 :: 32 :: env.sha256 (canonicalizeJ document))

/-- `_getUncachedEntry({tokenizedId})` (non-explain path): point lookup by
`entry.tokenizedId`; a record whose `expires` lies strictly in the past
(`now > record.entry.expires`) is treated exactly like a missing record,
and both cases throw the same `NotFoundError`. -/
def getUncachedEntry (store : EntryStore) (tokenizedId : Bytes) (now : Int) :
    Except CacheError CacheRecord :=
  match store tokenizedId with
  | none => .error .notFound
  | some record =>
    if JSDate.ltD record.entry.expires (.valid now) then .error .notFound
    else .ok record

/-- Outcome of a `get` call. -/
inductive GetOutcome where
  | ok : CacheRecord → GetOutcome
  | explainInfo : Bytes → GetOutcome
  | err : CacheError → GetOutcome
  | outOfFuel : GetOutcome

/-- The memoized body of `get` for an already-tokenized id: consult the
in-memory cache; on a miss run `_getUncachedEntry` once and install the
record (a rejected fetch leaves the slot absent and propagates); then
re-check `expires` against the current time, and on staleness delete the
slot (the compare step `peek(key) === promise` succeeds, no interleaving
within one call) and retry. The source recursion is embedded with an
explicit `fuel` bound; fuel `2` is proved sufficient. -/
def getCachedLoop (store : EntryStore) (now : Int) (tokenizedId : Bytes) :
    Nat → MemCache → GetOutcome × MemCache
  | 0, cache => (.outOfFuel, cache)
  | Nat.succ fuel, cache =>
    match cache (cacheKey tokenizedId) with
    | some record =>
      if JSDate.ltD record.entry.expires (.valid now) then
        getCachedLoop store now tokenizedId fuel (cacheDelete cache (cacheKey tokenizedId))
      else (.ok record, cache)
    | none =>
      match getUncachedEntry store tokenizedId now with
      | .error e => (.err e, cache)
      | .ok record =>
        if JSDate.ltD record.entry.expires (.valid now) then
          getCachedLoop store now tokenizedId fuel
            (cacheDelete (cacheInsert cache (cacheKey tokenizedId) record)
              (cacheKey tokenizedId))
        else (.ok record, cacheInsert cache (cacheKey tokenizedId) record)

/-- Arguments of `get({id, tokenizedId, tokenizer, explain})`. -/
structure GetParams where
  id : Option String
  tokenizedId : Option Bytes
  tokenizer : Option Tokenizer
  explain : Bool

/-- `get` once the tokenized id is in hand: the explain path bypasses the
in-memory cache entirely and returns explain information for the store
query; otherwise run the memoized read-through loop. -/
def getTokenized (now : Int) (fuel : Nat) (explain : Bool) (tokenizedId : Bytes)
    (s : SysState) : GetOutcome × SysState :=
  if explain then (.explainInfo tokenizedId, s)
  else
    ((getCachedLoop s.store now tokenizedId fuel s.cache).1,
      { store := s.store, cache := (getCachedLoop s.store now tokenizedId fuel s.cache).2 })

/-- `get({id, tokenizedId, tokenizer, explain})`: argument validation
(exactly one of `id`/`tokenizedId`), tokenization if needed, then the
read-through lookup. -/
def get (env : ModuleEnv) (now : Int) (fuel : Nat) (p : GetParams) (s : SysState) :
    GetOutcome × SysState :=
  match p.id, p.tokenizedId with
  | some _, some _ =>
    (.err (.invalidArgument "Only one of id and tokenizedId must be given."), s)
  | none, none =>
    (.err (.invalidArgument "Either id or tokenizedId are required."), s)
  | some i, none => getTokenized now fuel p.explain (tokenizeId env i p.tokenizer).1 s
  | none, some t => getTokenized now fuel p.explain t s

/-- Outcome of an `upsert` call. -/
inductive UpsertOutcome where
  | ok : CacheRecord → UpsertOutcome
  | explainInfo : Bytes → UpsertOutcome
  | err : CacheError → UpsertOutcome

/-- Arguments of `upsert({id, tokenizedId, tokenizer, ttl, value,
explain})`. `ttl` is optional in the source (`assert.optionalNumber`). -/
structure UpsertParams where
  id : Option String
  tokenizedId : Option Bytes
  tokenizer : Option Tokenizer
  ttl : Option Int
  value : JVal
  explain : Bool

/-- `new Date(now + ttl)`: with `ttl` absent the sum is `NaN` and the
resulting date is invalid. -/
def dateOfTtl (now : Int) (ttl : Option Int) : JSDate :=
  match ttl with
  | some t => .valid (now + t)
  | none => .invalid

/-- The `updateOne(query, {$set, $setOnInsert}, {upsert: true})` call: on
a match, `$set` overwrites `entry.expires`, `entry.value`, `meta.created`
and `meta.updated`, leaving `entry.tokenizedId` (the match key) as it
was; on insert, `$setOnInsert` additionally writes `entry.tokenizedId`. -/
def storeUpsert (store : EntryStore) (tokenizedId : Bytes) (expires : JSDate)
    (value : JVal) (now : Int) : EntryStore :=
  fun t =>
    if t = tokenizedId then
      match store t with
      | some old => some {
          entry := { tokenizedId := old.entry.tokenizedId, expires := expires,
                     value := value },
          meta := { created := now, updated := now } }
      | none => some {
          entry := { tokenizedId := tokenizedId, expires := expires, value := value },
          meta := { created := now, updated := now } }
    else store t

/-- `upsert` once the tokenized id is in hand: build the record, return
explain information before touching anything if `explain` is set, else
perform the atomic store upsert, then synchronously and unconditionally
delete the in-memory cache slot, and return the locally built record. -/
def upsertTokenized (now : Int) (ttl : Option Int) (value : JVal) (explain : Bool)
    (tokenizedId : Bytes) (s : SysState) : UpsertOutcome × SysState :=
  if explain then (.explainInfo tokenizedId, s)
  else
    (.ok { entry := { tokenizedId := tokenizedId, expires := dateOfTtl now ttl,
                      value := value },
           meta := { created := now, updated := now } },
      { store := storeUpsert s.store tokenizedId (dateOfTtl now ttl) value now,
        cache := cacheDelete s.cache (cacheKey tokenizedId) })

/-- `upsert({id, tokenizedId, tokenizer, ttl, value, explain})`: argument
validation (exactly one of `id`/`tokenizedId`), tokenization if needed,
then the durable write and cache invalidation. -/
def upsert (env : ModuleEnv) (now : Int) (p : UpsertParams) (s : SysState) :
    UpsertOutcome × SysState :=
  match p.id, p.tokenizedId with
  | some _, some _ =>
    (.err (.invalidArgument "Only one of id and tokenizedId must be given."), s)
  | none, none =>
    (.err (.invalidArgument "Either id or tokenizedId are required."), s)
  | some i, none => upsertTokenized now p.ttl p.value p.explain (tokenizeId env i p.tokenizer).1 s
  | none, some t => upsertTokenized now p.ttl p.value p.explain t s

/-! ## base64url: roundtrip and injectivity -/

/-- All bytes of a sequence are valid (below 256). -/
def ValidBytes (bs : Bytes) : Prop := ∀ b ∈ bs, b < 256

/-- Encoding valid bytes yields six-bit groups below 64. -/
theorem b64EncodeBytes_lt :
    (bs : List Nat) → (∀ b ∈ bs, b < 256) → ∀ s ∈ b64EncodeBytes bs, s < 64
  | [], _ => by simp [b64EncodeBytes]
  | [b0], h => by
    have h0 : b0 < 256 := h b0 (by simp)
    simp only [b64EncodeBytes, List.mem_cons, List.not_mem_nil, or_false]
    rintro s (rfl | rfl) <;> omega
  | [b0, b1], h => by
    have h0 : b0 < 256 := h b0 (by simp)
    have h1 : b1 < 256 := h b1 (by simp)
    simp only [b64EncodeBytes, List.mem_cons, List.not_mem_nil, or_false]
    rintro s (rfl | rfl | rfl) <;> omega
  | b0 :: b1 :: b2 :: rest, h => by
    have h0 : b0 < 256 := h b0 (by simp)
    have h1 : b1 < 256 := h b1 (by simp)
    have h2 : b2 < 256 := h b2 (by simp)
    have hrest := b64EncodeBytes_lt rest (fun b hb => h b (by simp [hb]))
    simp only [b64EncodeBytes, List.mem_cons]
    rintro s (rfl | rfl | rfl | rfl | hs)
    · omega
    · omega
    · omega
    · omega
    · exact hrest s hs

/-- Decoding inverts encoding on valid byte sequences. -/
theorem b64DecodeSextets_encode :
    (bs : List Nat) → (∀ b ∈ bs, b < 256) →
      b64DecodeSextets (b64EncodeBytes bs) = bs
  | [], _ => by simp [b64EncodeBytes, b64DecodeSextets]
  | [b0], h => by
    have h0 : b0 < 256 := h b0 (by simp)
    simp only [b64EncodeBytes, b64DecodeSextets, List.cons.injEq, and_true]
    omega
  | [b0, b1], h => by
    have h0 : b0 < 256 := h b0 (by simp)
    have h1 : b1 < 256 := h b1 (by simp)
    simp only [b64EncodeBytes, b64DecodeSextets, List.cons.injEq, and_true]
    constructor
    · omega
    · omega
  | b0 :: b1 :: b2 :: rest, h => by
    have h0 : b0 < 256 := h b0 (by simp)
    have h1 : b1 < 256 := h b1 (by simp)
    have h2 : b2 < 256 := h b2 (by simp)
    have hrest := b64DecodeSextets_encode rest (fun b hb => h b (by simp [hb]))
    simp only [b64EncodeBytes, b64DecodeSextets, List.cons.injEq]
    refine ⟨by omega, by omega, by omega, hrest⟩

/-- `sextetOfChar` recovers every six-bit group from its character. -/
theorem sextetOfChar_charOfSextet : ∀ s : Nat, s < 64 → sextetOfChar (charOfSextet s) = s := by
  decide

/-- Mapping to characters and back is the identity on six-bit groups. -/
theorem map_sextetOfChar_map_charOfSextet :
    (l : List Nat) → (∀ s ∈ l, s < 64) →
      (l.map charOfSextet).map sextetOfChar = l
  | [], _ => by simp
  | s :: rest, h => by
    have hs : s < 64 := h s (by simp)
    have hrest := map_sextetOfChar_map_charOfSextet rest (fun x hx => h x (by simp [hx]))
    simp only [List.map_cons, List.cons.injEq]
    exact ⟨sextetOfChar_charOfSextet s hs, hrest⟩

/-- base64url encoding is injective on valid byte sequences. -/
theorem base64urlEncode_injOn (bs1 bs2 : Bytes)
    (h1 : ValidBytes bs1) (h2 : ValidBytes bs2)
    (heq : base64urlEncode bs1 = base64urlEncode bs2) : bs1 = bs2 := by
  have hchars : (b64EncodeBytes bs1).map charOfSextet = (b64EncodeBytes bs2).map charOfSextet := by
    have := congrArg String.data heq
    simpa [base64urlEncode] using this
  have hsex : b64EncodeBytes bs1 = b64EncodeBytes bs2 := by
    have e1 := map_sextetOfChar_map_charOfSextet (b64EncodeBytes bs1) (b64EncodeBytes_lt bs1 h1)
    have e2 := map_sextetOfChar_map_charOfSextet (b64EncodeBytes bs2) (b64EncodeBytes_lt bs2 h2)
    rw [← e1, ← e2, hchars]
  calc bs1 = b64DecodeSextets (b64EncodeBytes bs1) := (b64DecodeSextets_encode bs1 h1).symm
    _ = b64DecodeSextets (b64EncodeBytes bs2) := by rw [hsex]
    _ = bs2 := b64DecodeSextets_encode bs2 h2

/-! ## Canonicalization factors through the key-sorted normal form -/

mutual

/-- Size measure on JSON values for strong induction. -/
def jsize : JVal → Nat
  | .null => 1
  | .bool _ => 1
  | .num _ => 1
  | .str _ => 1
  | .arr vs => 1 + jsizeList vs
  | .obj kvs => 1 + jsizeMembers kvs

/-- Size measure on JSON arrays. -/
def jsizeList : List JVal → Nat
  | [] => 0
  | v :: vs => jsize v + jsizeList vs

/-- Size measure on object member lists. -/
def jsizeMembers : List (String × JVal) → Nat
  | [] => 0
  | (_, v) :: kvs => jsize v + jsizeMembers kvs

end

/-- Every JSON value has positive size. -/
theorem jsize_pos (v : JVal) : 1 ≤ jsize v := by
  cases v <;> simp [jsize]

/-- Mapping a key-preserving function commutes with sorted insertion. -/
theorem map_insertByKey {α β : Type} (g : String × α → β) (p : String × α) :
    (l : List (String × α)) →
      (insertByKey p l).map (fun q => (q.1, g q)) =
        insertByKey (p.1, g p) (l.map (fun q => (q.1, g q)))
  | [] => by simp [insertByKey]
  | q :: qs => by
    by_cases h : q.1 < p.1
    · simp [insertByKey, h, map_insertByKey g p qs]
    · simp [insertByKey, h]

/-- Mapping a key-preserving function commutes with sorting by key. -/
theorem map_sortByKey {α β : Type} (g : String × α → β) :
    (l : List (String × α)) →
      (sortByKey l).map (fun q => (q.1, g q)) =
        sortByKey (l.map (fun q => (q.1, g q)))
  | [] => by simp [sortByKey]
  | p :: ps => by
    simp [sortByKey, map_insertByKey, map_sortByKey g ps]

/-- `serMembersJ` is the member-wise serialization map. -/
theorem serMembersJ_eq_map :
    (kvs : List (String × JVal)) →
      serMembersJ kvs = kvs.map (fun p => jsonQuote p.1 ++ ":" ++ serializeJ p.2)
  | [] => by simp [serMembersJ]
  | (k, v) :: kvs => by
    simp [serMembersJ, serMembersJ_eq_map kvs]

/-- Strong-induction core: the canonical serialization of a value equals
the plain serialization of its key-sorted normal form. -/
theorem canonFactor_aux : ∀ n : Nat,
    (∀ v, jsize v ≤ n → canonicalizeJ v = serializeJ (normalizeJ v)) ∧
    (∀ vs, jsizeList vs ≤ n → canonListJ vs = serListJ (normalizeListJ vs)) ∧
    (∀ kvs, jsizeMembers kvs ≤ n →
      canonMembersJ kvs =
        (normalizeMembersJ kvs).map
          (fun p => (p.1, jsonQuote p.1 ++ ":" ++ serializeJ p.2))) := by
  intro n
  induction n with
  | zero =>
    refine ⟨?_, ?_, ?_⟩
    · intro v hv
      have := jsize_pos v
      omega
    · intro vs hvs
      cases vs with
      | nil => simp [canonListJ, normalizeListJ, serListJ]
      | cons v vs =>
        have := jsize_pos v
        simp only [jsizeList] at hvs
        omega
    · intro kvs hkvs
      cases kvs with
      | nil => simp [canonMembersJ, normalizeMembersJ]
      | cons kv kvs =>
        obtain ⟨k, v⟩ := kv
        have := jsize_pos v
        simp only [jsizeMembers] at hkvs
        omega
  | succ n ih =>
    obtain ⟨ihv, ihl, ihm⟩ := ih
    have hv : ∀ v, jsize v ≤ n + 1 → canonicalizeJ v = serializeJ (normalizeJ v) := by
      intro v hsz
      cases v with
      | null => simp [canonicalizeJ, normalizeJ, serializeJ]
      | bool b => cases b <;> simp [canonicalizeJ, normalizeJ, serializeJ]
      | num m => simp [canonicalizeJ, normalizeJ, serializeJ]
      | str s => simp [canonicalizeJ, normalizeJ, serializeJ]
      | arr vs =>
        have hvs : jsizeList vs ≤ n := by
          simp only [jsize] at hsz
          omega
        simp [canonicalizeJ, normalizeJ, serializeJ, ihl vs hvs]
      | obj kvs =>
        have hkvs : jsizeMembers kvs ≤ n := by
          simp only [jsize] at hsz
          omega
        have hmem := ihm kvs hkvs
        have hsort := map_sortByKey
          (fun p : String × JVal => jsonQuote p.1 ++ ":" ++ serializeJ p.2)
          (normalizeMembersJ kvs)
        calc canonicalizeJ (.obj kvs)
            = "\x7b" ++ commaJoin ((sortByKey (canonMembersJ kvs)).map Prod.snd) ++ "\x7d" := by
              simp [canonicalizeJ]
          _ = "\x7b" ++ commaJoin ((sortByKey ((normalizeMembersJ kvs).map
                (fun p => (p.1, jsonQuote p.1 ++ ":" ++ serializeJ p.2)))).map Prod.snd) ++
                "\x7d" := by rw [hmem]
          _ = "\x7b" ++ commaJoin (((sortByKey (normalizeMembersJ kvs)).map
                (fun p => (p.1, jsonQuote p.1 ++ ":" ++ serializeJ p.2))).map Prod.snd) ++
                "\x7d" := by rw [hsort]
          _ = "\x7b" ++ commaJoin ((sortByKey (normalizeMembersJ kvs)).map
                (fun p => jsonQuote p.1 ++ ":" ++ serializeJ p.2)) ++ "\x7d" := by
              rw [List.map_map]
              rfl
          _ = serializeJ (normalizeJ (.obj kvs)) := by
              simp [serializeJ, normalizeJ, serMembersJ_eq_map]
    refine ⟨hv, ?_, ?_⟩
    · intro vs hvs
      cases vs with
      | nil => simp [canonListJ, normalizeListJ, serListJ]
      | cons v vs =>
        have h1 : jsize v ≤ n + 1 := by
          simp only [jsizeList] at hvs
          have := jsize_pos v
          omega
        have h2 : jsizeList vs ≤ n := by
          simp only [jsizeList] at hvs
          have := jsize_pos v
          omega
        simp [canonListJ, normalizeListJ, serListJ, hv v h1, ihl vs h2]
    · intro kvs hkvs
      cases kvs with
      | nil => simp [canonMembersJ, normalizeMembersJ]
      | cons kv kvs =>
        obtain ⟨k, v⟩ := kv
        have h1 : jsize v ≤ n + 1 := by
          simp only [jsizeMembers] at hkvs
          have := jsize_pos v
          omega
        have h2 : jsizeMembers kvs ≤ n := by
          simp only [jsizeMembers] at hkvs
          have := jsize_pos v
          omega
        simp [canonMembersJ, normalizeMembersJ, hv v h1, ihm kvs h2]

/-- The canonical serialization of a value is the plain serialization of
its key-sorted normal form. -/
theorem canonicalizeJ_factor (v : JVal) : canonicalizeJ v = serializeJ (normalizeJ v) :=
  (canonFactor_aux (jsize v)).1 v le_rfl

/-- Documents that are structurally equal up to object key insertion
order canonicalize identically. -/
theorem canonicalizeJ_of_structEq {v1 v2 : JVal} (h : structEqUpToKeyOrder v1 v2) :
    canonicalizeJ v1 = canonicalizeJ v2 := by
  rw [canonicalizeJ_factor, canonicalizeJ_factor, h]

/-! ## Read-through cache lemmas -/

/-- A record that the store lookup accepts is not strictly expired at the
lookup's current time. -/
theorem getUncachedEntry_ok_fresh {store : EntryStore} {tokenizedId : Bytes} {now : Int}
    {r : CacheRecord} (h : getUncachedEntry store tokenizedId now = .ok r) :
    JSDate.ltD r.entry.expires (.valid now) = false := by
  unfold getUncachedEntry at h
  cases hfind : store tokenizedId with
  | none => simp [hfind] at h
  | some record =>
    simp only [hfind] at h
    by_cases hexp : JSDate.ltD record.entry.expires (.valid now) = true
    · simp [hexp] at h
    · simp only [hexp, if_false, Bool.false_eq_true, Except.ok.injEq] at h
      subst h
      simpa using hexp

/-- Nothing the memoized loop returns as a success is strictly expired at
the call's current time. -/
theorem getCachedLoop_ok_fresh {store : EntryStore} {now : Int} {tokenizedId : Bytes} :
    ∀ {fuel : Nat} {cache : MemCache} {r : CacheRecord},
      (getCachedLoop store now tokenizedId fuel cache).1 = .ok r →
      JSDate.ltD r.entry.expires (.valid now) = false := by
  intro fuel
  induction fuel with
  | zero => intro cache r h; exact absurd h (by simp [getCachedLoop])
  | succ fuel ih =>
    intro cache r h
    unfold getCachedLoop at h
    cases hslot : cache (cacheKey tokenizedId) with
    | some record =>
      simp only [hslot] at h
      by_cases hexp : JSDate.ltD record.entry.expires (.valid now) = true
      · rw [if_pos hexp] at h
        exact ih h
      · simp only [hexp, if_false, Bool.false_eq_true, GetOutcome.ok.injEq] at h
        subst h
        simpa using hexp
    | none =>
      simp only [hslot] at h
      cases hfetch : getUncachedEntry store tokenizedId now with
      | error e => simp [hfetch] at h
      | ok record =>
        have hfresh := getUncachedEntry_ok_fresh hfetch
        simp only [hfetch, hfresh, Bool.false_eq_true, if_false,
          GetOutcome.ok.injEq] at h
        subst h
        exact hfresh

/-- On a cache miss, one unit of fuel suffices: the loop performs exactly
one store lookup, installs a successful result (which is necessarily
fresh at this call's current time, so no retry fires), and propagates a
failed lookup with the slot left absent. -/
theorem getCachedLoop_miss {store : EntryStore} {now : Int} {tokenizedId : Bytes}
    {cache : MemCache} (fuel : Nat) (h : cache (cacheKey tokenizedId) = none) :
    getCachedLoop store now tokenizedId (fuel + 1) cache =
      match getUncachedEntry store tokenizedId now with
      | .error e => (.err e, cache)
      | .ok r => (.ok r, cacheInsert cache (cacheKey tokenizedId) r) := by
  unfold getCachedLoop
  rw [h]
  cases hfetch : getUncachedEntry store tokenizedId now with
  | error e => simp
  | ok record =>
    have hfresh := getUncachedEntry_ok_fresh hfetch
    simp [hfresh]

/-- The deleted slot of the staleness path is a miss for the retry. -/
theorem cacheDelete_self (c : MemCache) (key : String) : cacheDelete c key key = none := by
  simp [cacheDelete]

/-- The loop's result is the same for every fuel of at least two: one
possible staleness retry plus the retry itself. -/
theorem getCachedLoop_stable {store : EntryStore} {now : Int} {tokenizedId : Bytes}
    {cache : MemCache} {fuel : Nat} (h : 2 ≤ fuel) :
    getCachedLoop store now tokenizedId fuel cache =
      getCachedLoop store now tokenizedId 2 cache := by
  obtain ⟨k, rfl⟩ : ∃ k, fuel = k + 2 := ⟨fuel - 2, by omega⟩
  cases hslot : cache (cacheKey tokenizedId) with
  | some record =>
    by_cases hexp : JSDate.ltD record.entry.expires (.valid now) = true
    · show getCachedLoop store now tokenizedId (k + 1 + 1) cache =
        getCachedLoop store now tokenizedId (1 + 1) cache
      unfold getCachedLoop
      rw [hslot]
      simp only [hexp, if_true]
      rw [getCachedLoop_miss k (cacheDelete_self cache (cacheKey tokenizedId)),
        getCachedLoop_miss 0 (cacheDelete_self cache (cacheKey tokenizedId))]
    · show getCachedLoop store now tokenizedId (k + 1 + 1) cache =
        getCachedLoop store now tokenizedId (1 + 1) cache
      unfold getCachedLoop
      rw [hslot]
      simp [hexp]
  | none =>
    rw [show k + 2 = k + 1 + 1 from rfl, getCachedLoop_miss (k + 1) hslot,
      show (2 : Nat) = 1 + 1 from rfl, getCachedLoop_miss 1 hslot]

/-- With fuel two the loop always reaches a verdict: the fuel marker is
never the outcome, so the source recursion is bounded by one retry. -/
theorem getCachedLoop_ne_outOfFuel {store : EntryStore} {now : Int} {tokenizedId : Bytes}
    {cache : MemCache} {fuel : Nat} (h : 2 ≤ fuel) :
    (getCachedLoop store now tokenizedId fuel cache).1 ≠ .outOfFuel := by
  rw [getCachedLoop_stable h]
  cases hslot : cache (cacheKey tokenizedId) with
  | some record =>
    by_cases hexp : JSDate.ltD record.entry.expires (.valid now) = true
    · show (getCachedLoop store now tokenizedId (1 + 1) cache).1 ≠ .outOfFuel
      unfold getCachedLoop
      rw [hslot]
      simp only [hexp, if_true]
      rw [getCachedLoop_miss 0 (cacheDelete_self cache (cacheKey tokenizedId))]
      cases getUncachedEntry store tokenizedId now <;> simp
    · show (getCachedLoop store now tokenizedId (1 + 1) cache).1 ≠ .outOfFuel
      unfold getCachedLoop
      rw [hslot]
      simp [hexp]
  | none =>
    rw [show (2 : Nat) = 1 + 1 from rfl, getCachedLoop_miss 1 hslot]
    cases getUncachedEntry store tokenizedId now <;> simp

/-- A successful non-explain `get` result comes from the loop and is
fresh at the call's current time. -/
theorem getTokenized_ok_fresh {now : Int} {fuel : Nat} {explain : Bool}
    {tokenizedId : Bytes} {s : SysState} {r : CacheRecord} {s2 : SysState}
    (h : getTokenized now fuel explain tokenizedId s = (.ok r, s2)) :
    JSDate.ltD r.entry.expires (.valid now) = false := by
  unfold getTokenized at h
  by_cases he : explain = true
  · simp [he] at h
  · simp only [he, if_false, Bool.false_eq_true, Prod.mk.injEq] at h
    exact getCachedLoop_ok_fresh h.1

/-- Concrete fixtures used by witnesses. -/
def tokenizerW : Tokenizer := { hmac := fun bs => bs ++ [7] }

/-- A concrete module environment with computable collaborators. -/
def envW : ModuleEnv := { current := tokenizerW, sha256 := fun s => [s.length % 256] }

/-- The tokenized id of `"x"` under `envW`. -/
def tokW : Bytes := [18, 32, 120, 7]

/-- A record for `tokW`, fresh at any time up to `10`, created at `0`. -/
def recW : CacheRecord :=
  { entry := { tokenizedId := tokW, expires := .valid 10, value := .null },
    meta := { created := 0, updated := 0 } }

/-- A state whose durable store holds exactly `recW`, with an empty
in-memory cache. -/
def stateW : SysState :=
  { store := fun t => if t = tokW then some recW else none, cache := fun _ => none }

/-- Non-explain `get` parameters for the plaintext id `"x"`. -/
def pGetW : GetParams :=
  { id := some "x", tokenizedId := none, tokenizer := none, explain := false }

/-- C1. A logically expired entry (`expires` strictly before the current
time) is never returned by `get`, even if physically present in the
store; and in the store lookup `_getUncachedEntry`, a missing record and
an expired-but-present record both produce the very same `NotFound`
error. -/
theorem get_never_returns_expired :
    (∀ (env : ModuleEnv) (now : Int) (fuel : Nat) (p : GetParams) (s : SysState)
       (r : CacheRecord) (s2 : SysState),
      get env now fuel p s = (.ok r, s2) →
        JSDate.ltD r.entry.expires (.valid now) = false) ∧
    (∀ (store : EntryStore) (tokenizedId : Bytes) (now : Int),
      store tokenizedId = none →
        getUncachedEntry store tokenizedId now = .error .notFound) ∧
    (∀ (store : EntryStore) (tokenizedId : Bytes) (now : Int) (r : CacheRecord),
      store tokenizedId = some r →
      JSDate.ltD r.entry.expires (.valid now) = true →
        getUncachedEntry store tokenizedId now = .error .notFound) := by
  refine ⟨?_, ?_, ?_⟩
  · intro env now fuel p s r s2 h
    unfold get at h
    cases hid : p.id with
    | some i =>
      cases htok : p.tokenizedId with
      | some t => simp [hid, htok] at h
      | none =>
        simp only [hid, htok] at h
        exact getTokenized_ok_fresh h
    | none =>
      cases htok : p.tokenizedId with
      | some t =>
        simp only [hid, htok] at h
        exact getTokenized_ok_fresh h
      | none => simp [hid, htok] at h
  · intro store tokenizedId now h
    simp [getUncachedEntry, h]
  · intro store tokenizedId now r h hexp
    simp [getUncachedEntry, h, hexp]

/-- Witness for C1: a concrete fresh `get` paired with concrete expired
and missing store lookups. -/
theorem get_never_returns_expired_witness :
    (get envW 5 2 pGetW stateW = (.ok recW, (get envW 5 2 pGetW stateW).2) ∧
      JSDate.ltD recW.entry.expires (.valid 5) = false) ∧
    (stateW.store [9] = none ∧
      getUncachedEntry stateW.store [9] 5 = .error .notFound) ∧
    (stateW.store tokW = some recW ∧
      JSDate.ltD recW.entry.expires (.valid 11) = true ∧
      getUncachedEntry stateW.store tokW 11 = .error .notFound) :=
  ⟨⟨by rfl, get_never_returns_expired.1 envW 5 2 pGetW stateW recW _ (by rfl)⟩,
   ⟨by rfl, get_never_returns_expired.2.1 stateW.store [9] 5 (by rfl)⟩,
   ⟨by rfl, by rfl,
     get_never_returns_expired.2.2 stateW.store tokW 11 recW (by rfl) (by rfl)⟩⟩

/-- The record stored after the concrete C2 update: every field except
the match key rewritten, `created` included. -/
def recW2 : CacheRecord :=
  { entry := { tokenizedId := tokW, expires := .valid 15, value := .str "new" },
    meta := { created := 5, updated := 5 } }

/-- Update parameters hitting the existing `tokW` record. -/
def pUpdW : UpsertParams :=
  { id := none, tokenizedId := some tokW, tokenizer := none, ttl := some 10,
    value := .str "new", explain := false }

/-- Counterexample to C2 as stated: an `upsert` matching the existing
entry for `tokW` (whose `meta.created` is `0`) leaves a record whose
`meta.created` is the update time `5`: `$set` in the source includes
`meta.created`, so `created` does not survive an update. -/
theorem upsert_update_rewrites_created_cex :
    stateW.store tokW = some recW ∧
    recW.meta.created = 0 ∧
    (upsert envW 5 pUpdW stateW).2.store tokW = some recW2 ∧
    recW2.meta.created = 5 :=
  ⟨by rfl, by rfl, by rfl, by rfl⟩

/-- C2 (amended): an `upsert` matching an existing entry overwrites
`value`, `expires`, `meta.updated` and also `meta.created`; only
`entry.tokenizedId` is left unchanged from the matched record. -/
theorem upsert_update_frame (env : ModuleEnv) (now : Int) (ttl : Option Int)
    (v : JVal) (tkOpt : Option Tokenizer) (s : SysState) (tok : Bytes)
    (old : CacheRecord) (hold : s.store tok = some old) :
    (upsert env now
        { id := none, tokenizedId := some tok, tokenizer := tkOpt, ttl := ttl,
          value := v, explain := false } s).2.store tok =
      some { entry := { tokenizedId := old.entry.tokenizedId,
                        expires := dateOfTtl now ttl, value := v },
             meta := { created := now, updated := now } } := by
  simp only [upsert, upsertTokenized, if_false, Bool.false_eq_true, storeUpsert]
  simp [hold]

/-- Witness for C2's amended claim at the concrete fixture. -/
theorem upsert_update_frame_witness :
    stateW.store tokW = some recW ∧
    (upsert envW 5 pUpdW stateW).2.store tokW =
      some { entry := { tokenizedId := recW.entry.tokenizedId,
                        expires := dateOfTtl 5 (some 10), value := .str "new" },
             meta := { created := 5, updated := 5 } } :=
  ⟨by rfl,
    upsert_update_frame envW 5 (some 10) (.str "new") none stateW tokW recW (by rfl)⟩

/-- C3. `upsert` with `ttl = 0` at time `now` deletes any in-memory cache
entry for the id as a side effect, and a `get` for the same id at any
strictly later time fails with `NotFound` (the stored entry's `expires`
equals the write time, so the store lookup rejects it). -/
theorem upsert_ttl_zero_then_get_notFound (env : ModuleEnv) (i : String)
    (tkOpt : Option Tokenizer) (v : JVal) (s : SysState) (now now2 : Int)
    (h : now < now2) :
    (upsert env now
        { id := some i, tokenizedId := none, tokenizer := tkOpt, ttl := some 0,
          value := v, explain := false } s).2.cache
        (cacheKey (tokenizeId env i tkOpt).1) = none ∧
    (get env now2 2
        { id := some i, tokenizedId := none, tokenizer := tkOpt, explain := false }
        (upsert env now
          { id := some i, tokenizedId := none, tokenizer := tkOpt, ttl := some 0,
            value := v, explain := false } s).2).1 = .err .notFound := by
  constructor
  · simp [upsert, upsertTokenized, cacheDelete_self]
  · simp only [get, upsert, upsertTokenized, if_false, Bool.false_eq_true, getTokenized]
    rw [show (2 : Nat) = 1 + 1 from rfl,
      getCachedLoop_miss 1 (cacheDelete_self _ _)]
    have hfetch : getUncachedEntry
        (storeUpsert s.store (tokenizeId env i tkOpt).1 (dateOfTtl now (some 0)) v now)
        (tokenizeId env i tkOpt).1 now2 = .error .notFound := by
      unfold getUncachedEntry storeUpsert
      cases hold : s.store (tokenizeId env i tkOpt).1 with
      | none => simp [hold, dateOfTtl, JSDate.ltD, h]
      | some old => simp [hold, dateOfTtl, JSDate.ltD, h]
    rw [hfetch]

/-- Witness for C3 at the concrete fixture (write at `0`, read at `1`). -/
theorem upsert_ttl_zero_then_get_notFound_witness :
    (0 : Int) < 1 ∧
    ((upsert envW 0
        { id := some "x", tokenizedId := none, tokenizer := none, ttl := some 0,
          value := .null, explain := false } stateW).2.cache
        (cacheKey (tokenizeId envW "x" none).1) = none ∧
      (get envW 1 2
        { id := some "x", tokenizedId := none, tokenizer := none, explain := false }
        (upsert envW 0
          { id := some "x", tokenizedId := none, tokenizer := none, ttl := some 0,
            value := .null, explain := false } stateW).2).1 = .err .notFound) :=
  ⟨by norm_num,
    upsert_ttl_zero_then_get_notFound envW "x" none .null stateW 0 1 (by norm_num)⟩

/-- C4. When both of `id`/`tokenizedId` are supplied, or neither is, both
`get` and `upsert` fail with the invalid-argument error and return the
state untouched; the result holds for every environment (so no tokenizer
resolution or HMAC call can have occurred) and the returned state is
exactly the input state (no store or cache effect). -/
theorem invalid_args_rejected_before_io (env : ModuleEnv) (now : Int) (fuel : Nat)
    (i : String) (t : Bytes) (tkOpt : Option Tokenizer) (e : Bool)
    (ttl : Option Int) (v : JVal) (s : SysState) :
    get env now fuel
        { id := some i, tokenizedId := some t, tokenizer := tkOpt, explain := e } s =
      (.err (.invalidArgument "Only one of id and tokenizedId must be given."), s) ∧
    get env now fuel
        { id := none, tokenizedId := none, tokenizer := tkOpt, explain := e } s =
      (.err (.invalidArgument "Either id or tokenizedId are required."), s) ∧
    upsert env now
        { id := some i, tokenizedId := some t, tokenizer := tkOpt, ttl := ttl,
          value := v, explain := e } s =
      (.err (.invalidArgument "Only one of id and tokenizedId must be given."), s) ∧
    upsert env now
        { id := none, tokenizedId := none, tokenizer := tkOpt, ttl := ttl,
          value := v, explain := e } s =
      (.err (.invalidArgument "Either id or tokenizedId are required."), s) :=
  ⟨rfl, rfl, rfl, rfl⟩

/-- C5. `tokenizeId` returns the keyed MAC of the UTF-8 encoding of the
id, prefixed with the two type-tag bytes 18 (0x12, sha2-256) and 32
(0x20, digest length), together with the resolved tokenizer (the given
one, else the current one); and it is deterministic: any two calls on the
same id whose resolved tokenizers coincide produce the same output. -/
theorem tokenizeId_spec (env : ModuleEnv) (id : String) (tkOpt : Option Tokenizer) :
    (tokenizeId env id tkOpt).1 =
      18 :: 32 :: (tkOpt.getD env.current).hmac (utf8Encode id) ∧
    (tokenizeId env id tkOpt).2 = tkOpt.getD env.current ∧
    (∀ (env2 : ModuleEnv) (tkOpt2 : Option Tokenizer),
      tkOpt.getD env.current = tkOpt2.getD env2.current →
        tokenizeId env id tkOpt = tokenizeId env2 id tkOpt2) := by
  refine ⟨?_, ?_, ?_⟩
  · cases tkOpt <;> simp [tokenizeId, hmacString]
  · cases tkOpt <;> simp [tokenizeId]
  · intro env2 tkOpt2 hres
    cases tkOpt <;> cases tkOpt2 <;>
      simp_all [tokenizeId, hmacString, Option.getD]

/-- Witness for C5: the concrete tokenization of `"x"` under `envW`, with
a second environment whose current tokenizer differs but whose resolved
tokenizer is pinned to the same handle. -/
theorem tokenizeId_spec_witness :
    (tokenizeId envW "x" none).1 =
      18 :: 32 :: ((none : Option Tokenizer).getD envW.current).hmac (utf8Encode "x") ∧
    (tokenizeId envW "x" none).2 = (none : Option Tokenizer).getD envW.current ∧
    tokenizeId envW "x" none =
      tokenizeId { current := { hmac := fun _ => [] }, sha256 := fun _ => [] } "x"
        (some tokenizerW) :=
  ⟨(tokenizeId_spec envW "x" none).1,
   (tokenizeId_spec envW "x" none).2.1,
   (tokenizeId_spec envW "x" none).2.2
     { current := { hmac := fun _ => [] }, sha256 := fun _ => [] }
     (some tokenizerW) (by rfl)⟩

/-- C6. Content ids: structurally equal documents (equal up to object key
insertion order) receive identical ids; documents whose canonical forms
receive different digests (as any field difference does, barring a hash
collision) receive different ids, because the id is the injective
base64url encoding of the tagged digest of the canonical form; and the
computation depends only on the hash collaborator, never on the keyed
MAC (any two environments agreeing on `sha256` agree on every id,
whatever their tokenizers). -/
theorem createId_content_addressing :
    (∀ (env : ModuleEnv) (v1 v2 : JVal), structEqUpToKeyOrder v1 v2 →
      createId env v1 = createId env v2) ∧
    (∀ (env : ModuleEnv) (v1 v2 : JVal),
      ValidBytes (env.sha256 (canonicalizeJ v1)) →
      ValidBytes (env.sha256 (canonicalizeJ v2)) →
      env.sha256 (canonicalizeJ v1) ≠ env.sha256 (canonicalizeJ v2) →
        createId env v1 ≠ createId env v2) ∧
    (∀ (e1 e2 : ModuleEnv) (v : JVal), e1.sha256 = e2.sha256 →
      createId e1 v = createId e2 v) := by
  refine ⟨?_, ?_, ?_⟩
  · intro env v1 v2 h
    unfold createId
    rw [canonicalizeJ_of_structEq h]
  · intro env v1 v2 hv1 hv2 hne heq
    apply hne
    have hinj := base64urlEncode_injOn
      (18 :: 32 :: env.sha256 (canonicalizeJ v1))
      (18 :: 32 :: env.sha256 (canonicalizeJ v2))
      (by
        intro b hb
        simp only [List.mem_cons] at hb
        rcases hb with rfl | rfl | hb
        · omega
        · omega
        · exact hv1 b hb)
      (by
        intro b hb
        simp only [List.mem_cons] at hb
        rcases hb with rfl | rfl | hb
        · omega
        · omega
        · exact hv2 b hb)
      heq
    simpa using hinj
  · intro e1 e2 v h
    unfold createId
    rw [h]

/-- A document with keys `b`, `a` in that insertion order. -/
def v1W : JVal := .obj [("b", .num 1), ("a", .str "z")]

/-- The same document with keys in the other insertion order. -/
def v2W : JVal := .obj [("a", .str "z"), ("b", .num 1)]

/-- A document differing from `v1W` in the field `a`. -/
def v3W : JVal := .obj [("b", .num 1), ("a", .str "zz")]

/-- An environment sharing `envW`'s hash but carrying a different keyed
MAC. -/
def envShaW : ModuleEnv :=
  { current := { hmac := fun _ => [99] }, sha256 := fun s => [s.length % 256] }

/-- Witness for C6 at concrete documents: reordered keys give the same
id, a changed field gives a different id, and a different keyed MAC with
the same hash gives the same id. -/
theorem createId_content_addressing_witness :
    (structEqUpToKeyOrder v1W v2W ∧ createId envW v1W = createId envW v2W) ∧
    (envW.sha256 (canonicalizeJ v1W) ≠ envW.sha256 (canonicalizeJ v3W) ∧
      createId envW v1W ≠ createId envW v3W) ∧
    (envW.sha256 = envShaW.sha256 ∧ createId envW v1W = createId envShaW v1W) := by
  have hstruct : structEqUpToKeyOrder v1W v2W := by
    simp [structEqUpToKeyOrder, v1W, v2W, normalizeJ, normalizeMembersJ, sortByKey,
      insertByKey, show (['a'] : List Char) < ['b'] from by decide,
      show ¬((['b'] : List Char) < ['a']) from by decide]
  have hne : envW.sha256 (canonicalizeJ v1W) ≠ envW.sha256 (canonicalizeJ v3W) := by
    simp only [envW, v1W, v3W]
    simp [canonicalizeJ, canonMembersJ, sortByKey, insertByKey, jsonQuote, escapeChar,
      commaJoin]
    decide
  have hvalid1 : ValidBytes (envW.sha256 (canonicalizeJ v1W)) := by
    intro b hb
    simp [envW] at hb
    omega
  have hvalid3 : ValidBytes (envW.sha256 (canonicalizeJ v3W)) := by
    intro b hb
    simp [envW] at hb
    omega
  refine ⟨⟨hstruct, createId_content_addressing.1 envW v1W v2W hstruct⟩,
    ⟨hne, createId_content_addressing.2.1 envW v1W v3W hvalid1 hvalid3 hne⟩,
    ⟨rfl, createId_content_addressing.2.2 envW envShaW v1W rfl⟩⟩

/-- `getTokenized` is insensitive to fuel beyond two. -/
theorem getTokenized_stable {now : Int} {fuel : Nat} {explain : Bool}
    {tokenizedId : Bytes} {s : SysState} (h : 2 ≤ fuel) :
    getTokenized now fuel explain tokenizedId s =
      getTokenized now 2 explain tokenizedId s := by
  unfold getTokenized
  by_cases he : explain = true
  · simp [he]
  · simp only [he, if_false, Bool.false_eq_true]
    rw [getCachedLoop_stable h]

/-- C7. The staleness path of `get` is a bounded loop: the result is the
same for every fuel of at least two (so at most one retry is ever
needed); when the cached entry for the key is stale, the loop's verdict
is exactly that of a direct store fetch against the evicted cache (the
retry always reaches the durable store); the loop never exhausts fuel
two; and when the store has no record for the key, the stale-cache path
surfaces `NotFound`. -/
theorem get_staleness_retry_bounded :
    (∀ (env : ModuleEnv) (now : Int) (p : GetParams) (s : SysState) (fuel : Nat),
      2 ≤ fuel → get env now fuel p s = get env now 2 p s) ∧
    (∀ (store : EntryStore) (now : Int) (tokenizedId : Bytes) (cache : MemCache)
       (fuel : Nat), 2 ≤ fuel →
      (getCachedLoop store now tokenizedId fuel cache).1 ≠ .outOfFuel) ∧
    (∀ (store : EntryStore) (now : Int) (tokenizedId : Bytes) (cache : MemCache)
       (r : CacheRecord),
      cache (cacheKey tokenizedId) = some r →
      JSDate.ltD r.entry.expires (.valid now) = true →
        getCachedLoop store now tokenizedId 2 cache =
          match getUncachedEntry store tokenizedId now with
          | .error e => (.err e, cacheDelete cache (cacheKey tokenizedId))
          | .ok rec => (.ok rec,
              cacheInsert (cacheDelete cache (cacheKey tokenizedId))
                (cacheKey tokenizedId) rec)) ∧
    (∀ (store : EntryStore) (now : Int) (tokenizedId : Bytes) (cache : MemCache)
       (r : CacheRecord),
      store tokenizedId = none →
      cache (cacheKey tokenizedId) = some r →
      JSDate.ltD r.entry.expires (.valid now) = true →
        (getCachedLoop store now tokenizedId 2 cache).1 = .err .notFound) := by
  have hstale : ∀ (store : EntryStore) (now : Int) (tokenizedId : Bytes)
      (cache : MemCache) (r : CacheRecord),
      cache (cacheKey tokenizedId) = some r →
      JSDate.ltD r.entry.expires (.valid now) = true →
        getCachedLoop store now tokenizedId 2 cache =
          match getUncachedEntry store tokenizedId now with
          | .error e => (.err e, cacheDelete cache (cacheKey tokenizedId))
          | .ok rec => (.ok rec,
              cacheInsert (cacheDelete cache (cacheKey tokenizedId))
                (cacheKey tokenizedId) rec) := by
    intro store now tokenizedId cache r hslot hexp
    show getCachedLoop store now tokenizedId (1 + 1) cache = _
    unfold getCachedLoop
    rw [hslot]
    simp only [hexp, if_true]
    rw [getCachedLoop_miss 0 (cacheDelete_self cache (cacheKey tokenizedId))]
  refine ⟨?_, ?_, hstale, ?_⟩
  · intro env now p s fuel h
    unfold get
    cases hid : p.id <;> cases htok : p.tokenizedId <;>
      simp [getTokenized_stable h]
  · intro store now tokenizedId cache fuel h
    exact getCachedLoop_ne_outOfFuel h
  · intro store now tokenizedId cache r hstore hslot hexp
    rw [hstale store now tokenizedId cache r hslot hexp]
    simp [getUncachedEntry, hstore]

/-- A stale cached record for `tokW`: expired well before time `5`. -/
def recStaleW : CacheRecord :=
  { entry := { tokenizedId := tokW, expires := .valid 1, value := .null },
    meta := { created := 0, updated := 0 } }

/-- `stateW`'s store with `recStaleW` sitting stale in the memory cache. -/
def staleCacheW : MemCache :=
  fun k => if k = cacheKey tokW then some recStaleW else none

/-- Witness for C7: concretely, fuel three equals fuel two, fuel two
reaches a verdict, the stale slot's retry returns the store's fresh
record, and with an empty store the stale slot surfaces `NotFound`. -/
theorem get_staleness_retry_bounded_witness :
    (get envW 5 3 pGetW stateW = get envW 5 2 pGetW stateW) ∧
    ((getCachedLoop stateW.store 5 tokW 2 staleCacheW).1 ≠ .outOfFuel) ∧
    (staleCacheW (cacheKey tokW) = some recStaleW ∧
      JSDate.ltD recStaleW.entry.expires (.valid 5) = true ∧
      getCachedLoop stateW.store 5 tokW 2 staleCacheW =
        match getUncachedEntry stateW.store tokW 5 with
        | .error e => (.err e, cacheDelete staleCacheW (cacheKey tokW))
        | .ok rec => (.ok rec,
            cacheInsert (cacheDelete staleCacheW (cacheKey tokW)) (cacheKey tokW) rec)) ∧
    ((getCachedLoop (fun _ => none) 5 tokW 2 staleCacheW).1 = .err .notFound) :=
  ⟨get_staleness_retry_bounded.1 envW 5 pGetW stateW 3 (by norm_num),
   get_staleness_retry_bounded.2.1 stateW.store 5 tokW staleCacheW 2 (by norm_num),
   ⟨by rfl, by rfl,
     get_staleness_retry_bounded.2.2.1 stateW.store 5 tokW staleCacheW recStaleW
       (by rfl) (by rfl)⟩,
   get_staleness_retry_bounded.2.2.2 (fun _ => none) 5 tokW staleCacheW recStaleW
     (by rfl) (by rfl) (by rfl)⟩

/-- C8. A successful non-explain `upsert` of value `v` with ttl `T` at
time `now` leaves no in-memory cache entry for the key, whatever was
cached before (invalidation is unconditional and happens before the call
returns); consequently a `get` for the same id at any time `now2` within
the ttl window returns a record holding exactly `v` with `expires` equal
to the write time plus `T`. -/
theorem upsert_then_get_consistent (env : ModuleEnv) (i : String)
    (tkOpt : Option Tokenizer) (v : JVal) (T : Int) (s : SysState) (now now2 : Int)
    (h2 : now2 ≤ now + T) :
    (upsert env now
        { id := some i, tokenizedId := none, tokenizer := tkOpt, ttl := some T,
          value := v, explain := false } s).2.cache
        (cacheKey (tokenizeId env i tkOpt).1) = none ∧
    (∃ r : CacheRecord,
      (get env now2 2
          { id := some i, tokenizedId := none, tokenizer := tkOpt, explain := false }
          (upsert env now
            { id := some i, tokenizedId := none, tokenizer := tkOpt, ttl := some T,
              value := v, explain := false } s).2).1 = .ok r ∧
      r.entry.value = v ∧ r.entry.expires = .valid (now + T)) := by
  constructor
  · simp [upsert, upsertTokenized, cacheDelete_self]
  · simp only [get, upsert, upsertTokenized, if_false, Bool.false_eq_true, getTokenized]
    rw [show (2 : Nat) = 1 + 1 from rfl,
      getCachedLoop_miss 1 (cacheDelete_self _ _)]
    have hexp : JSDate.ltD (.valid (now + T)) (.valid now2) = false := by
      simp [JSDate.ltD]
      omega
    cases hold : s.store (tokenizeId env i tkOpt).1 with
    | none =>
      refine ⟨⟨⟨(tokenizeId env i tkOpt).1, .valid (now + T), v⟩, now, now⟩, ?_, rfl, rfl⟩
      simp [getUncachedEntry, storeUpsert, hold, dateOfTtl, hexp]
    | some old =>
      refine ⟨⟨⟨old.entry.tokenizedId, .valid (now + T), v⟩, now, now⟩, ?_, rfl, rfl⟩
      simp [getUncachedEntry, storeUpsert, hold, dateOfTtl, hexp]

/-- Witness for C8: write `"V"` at time `0` with ttl `30000`, read it
back at time `1`. -/
theorem upsert_then_get_consistent_witness :
    (1 : Int) ≤ 0 + 30000 ∧
    ((upsert envW 0
        { id := some "x", tokenizedId := none, tokenizer := none, ttl := some 30000,
          value := .str "V", explain := false } stateW).2.cache
        (cacheKey (tokenizeId envW "x" none).1) = none ∧
      (∃ r : CacheRecord,
        (get envW 1 2
            { id := some "x", tokenizedId := none, tokenizer := none, explain := false }
            (upsert envW 0
              { id := some "x", tokenizedId := none, tokenizer := none,
                ttl := some 30000, value := .str "V", explain := false } stateW).2).1 =
          .ok r ∧
        r.entry.value = .str "V" ∧ r.entry.expires = .valid (0 + 30000))) :=
  ⟨by norm_num,
    upsert_then_get_consistent envW "x" none (.str "V") 30000 stateW 0 1 (by norm_num)⟩

/-- Upsert parameters with `ttl` absent, addressing `tokW` directly. -/
def pNoTtlW : UpsertParams :=
  { id := none, tokenizedId := some tokW, tokenizer := none, ttl := none,
    value := .null, explain := false }

/-- Upsert parameters with a negative `ttl`, addressing `tokW` directly. -/
def pNegTtlW : UpsertParams :=
  { id := none, tokenizedId := some tokW, tokenizer := none, ttl := some (-5),
    value := .null, explain := false }

/-- Counterexample to C9 as stated: `upsert` with `ttl` absent and with
`ttl` negative both succeed (no invalid-argument error) and both perform
the durable-store write — with absent `ttl` the stored `expires` is the
invalid date `new Date(NaN)`. -/
theorem upsert_ttl_unvalidated_cex :
    (upsert envW 0 pNoTtlW stateW).1 = .ok ⟨⟨tokW, .invalid, .null⟩, 0, 0⟩ ∧
    (upsert envW 0 pNoTtlW stateW).2.store tokW = some ⟨⟨tokW, .invalid, .null⟩, 0, 0⟩ ∧
    (upsert envW 0 pNegTtlW stateW).1 = .ok ⟨⟨tokW, .valid (-5), .null⟩, 0, 0⟩ ∧
    (upsert envW 0 pNegTtlW stateW).2.store tokW =
      some ⟨⟨tokW, .valid (-5), .null⟩, 0, 0⟩ :=
  ⟨by rfl, by rfl, by rfl, by rfl⟩

/-- C9 (amended). `upsert` performs no ttl validation beyond the
optional-number type check: with `ttl` absent it succeeds and writes an
entry whose `expires` is the invalid date, which neither expiry
comparison ever classifies as expired (the entry is served
indefinitely); with a negative `ttl` it succeeds and writes an entry
that is already expired at the write time itself, so the store lookup
rejects it immediately with `NotFound`. -/
theorem upsert_ttl_unvalidated (env : ModuleEnv) (now : Int) (tok : Bytes)
    (v : JVal) (tkOpt : Option Tokenizer) (s : SysState) (t : Int) (ht : t < 0) :
    ((upsert env now
        { id := none, tokenizedId := some tok, tokenizer := tkOpt, ttl := none,
          value := v, explain := false } s).1 = .ok ⟨⟨tok, .invalid, v⟩, now, now⟩) ∧
    (∃ r : CacheRecord,
      (upsert env now
        { id := none, tokenizedId := some tok, tokenizer := tkOpt, ttl := none,
          value := v, explain := false } s).2.store tok = some r ∧
      r.entry.expires = .invalid) ∧
    (∀ d : JSDate, JSDate.ltD .invalid d = false ∧ JSDate.ltD d .invalid = false) ∧
    ((upsert env now
        { id := none, tokenizedId := some tok, tokenizer := tkOpt, ttl := some t,
          value := v, explain := false } s).1 = .ok ⟨⟨tok, .valid (now + t), v⟩, now, now⟩) ∧
    (getUncachedEntry
        (upsert env now
          { id := none, tokenizedId := some tok, tokenizer := tkOpt, ttl := some t,
            value := v, explain := false } s).2.store tok now = .error .notFound) := by
  refine ⟨rfl, ?_, ?_, rfl, ?_⟩
  · cases hold : s.store tok with
    | none =>
      exact ⟨⟨⟨tok, .invalid, v⟩, now, now⟩,
        by simp [upsert, upsertTokenized, storeUpsert, hold, dateOfTtl], rfl⟩
    | some old =>
      exact ⟨⟨⟨old.entry.tokenizedId, .invalid, v⟩, now, now⟩,
        by simp [upsert, upsertTokenized, storeUpsert, hold, dateOfTtl], rfl⟩
  · intro d
    cases d <;> simp [JSDate.ltD]
  · have hlt : JSDate.ltD (.valid (now + t)) (.valid now) = true := by
      simp [JSDate.ltD]
      omega
    cases hold : s.store tok with
    | none =>
      simp [upsert, upsertTokenized, storeUpsert, hold, dateOfTtl,
        getUncachedEntry, hlt]
    | some old =>
      simp [upsert, upsertTokenized, storeUpsert, hold, dateOfTtl,
        getUncachedEntry, hlt]

/-- Witness for C9's amended claim at `t = -5`. -/
theorem upsert_ttl_unvalidated_witness :
    (-5 : Int) < 0 ∧
    (((upsert envW 0 pNoTtlW stateW).1 = .ok ⟨⟨tokW, .invalid, .null⟩, 0, 0⟩) ∧
      (∃ r : CacheRecord,
        (upsert envW 0 pNoTtlW stateW).2.store tokW = some r ∧
        r.entry.expires = .invalid) ∧
      (∀ d : JSDate, JSDate.ltD .invalid d = false ∧ JSDate.ltD d .invalid = false) ∧
      ((upsert envW 0 pNegTtlW stateW).1 = .ok ⟨⟨tokW, .valid (0 + -5), .null⟩, 0, 0⟩) ∧
      (getUncachedEntry (upsert envW 0 pNegTtlW stateW).2.store tokW 0 =
        .error .notFound)) :=
  ⟨by norm_num, upsert_ttl_unvalidated envW 0 tokW .null none stateW (-5) (by norm_num)⟩

/-- C10. With `explain = true` both `get` and `upsert` bypass the
in-memory cache, perform no durable write and no cache deletion or
installation, and return the query's explain information: the result is
the explain marker for the queried tokenized id, and the returned state
is exactly the input state. -/
theorem explain_bypasses_cache_and_store (env : ModuleEnv) (now : Int) (fuel : Nat)
    (i : String) (t : Bytes) (tkOpt : Option Tokenizer) (ttl : Option Int)
    (v : JVal) (s : SysState) :
    get env now fuel
        { id := some i, tokenizedId := none, tokenizer := tkOpt, explain := true } s =
      (.explainInfo (tokenizeId env i tkOpt).1, s) ∧
    get env now fuel
        { id := none, tokenizedId := some t, tokenizer := tkOpt, explain := true } s =
      (.explainInfo t, s) ∧
    upsert env now
        { id := some i, tokenizedId := none, tokenizer := tkOpt, ttl := ttl,
          value := v, explain := true } s =
      (.explainInfo (tokenizeId env i tkOpt).1, s) ∧
    upsert env now
        { id := none, tokenizedId := some t, tokenizer := tkOpt, ttl := ttl,
          value := v, explain := true } s =
      (.explainInfo t, s) :=
  ⟨rfl, rfl, rfl, rfl⟩

end TokenizedCache
